import Mathlib

/-!
Verification development for the alphapept matching module
(`nbs/09_matching.ipynb`): dataset alignment (pairwise distance
estimation, global regression-based alignment, calibration) and
match-between-runs (reference building, candidate probability,
merging of accepted matches).

Numeric values are modelled as rationals.  A float `NaN` produced by
the source (e.g. `np.nanmedian` of an empty array, or `0/0` in the
relative-distance formula) is modelled as `Option.none`; `np.nanmedian`
drops such undefined entries, which `nanmedian` below mirrors.  Python
exceptions (`KeyError` from pandas lookups, `NotImplementedError` for
unsupported modes) are modelled with `Except PyError`.
-/

namespace Matching

/-- Python exception kinds raised by the matching core. -/
inductive PyError where
  | notImplemented : String → PyError
  | keyError : String → PyError
deriving DecidableEq, Repr

/-- `np.median` of a list: sort, then take the middle element (odd length)
or the average of the two middle elements (even length); the empty list
yields `none` (numpy's `nan`). -/
def median (l : List ℚ) : Option ℚ :=
  if l = [] then none
  else
    some (let s := l.insertionSort (· ≤ ·)
          let n := l.length
          if n % 2 = 1 then s.getD (n / 2) 0
          else (s.getD (n / 2 - 1) 0 + s.getD (n / 2) 0) / 2)

/-- `np.nanmedian`: the median of the defined (non-`NaN`) entries;
`none` when no entry is defined. -/
def nanmedian (l : List (Option ℚ)) : Option ℚ :=
  median (l.filterMap id)

/-- A precursor-indexed dataframe as consumed by `calculate_distance`:
a column-name list and rows of (precursor key, values aligned with the
columns).  Well-formedness (`DTable.Wf`) is the pandas invariant. -/
structure DTable where
  cols : List String
  rows : List (String × List ℚ)

/-- The index (precursor keys) of the table. -/
def DTable.keys (t : DTable) : List String := t.rows.map Prod.fst

/-- Column membership, as pandas `c in table.columns`. -/
def DTable.hasCol (t : DTable) (c : String) : Bool := t.cols.contains c

/-- The row of a given precursor key (first match), as `table.loc[k]`. -/
def DTable.rowOf (t : DTable) (k : String) : Option (List ℚ) :=
  (t.rows.find? (fun r => r.1 = k)).map Prod.snd

/-- The scalar entry at key `k`, column `c`; the default `0` is never
reached when the key and column exist in a well-formed table. -/
def DTable.entryD (t : DTable) (k c : String) : ℚ :=
  match t.rowOf k, t.cols.indexOf? c with
  | some vs, some i => vs.getD i 0
  | _, _ => 0

/-- pandas invariant: unique index and rows matching the column list. -/
def DTable.Wf (t : DTable) : Prop :=
  t.keys.Nodup ∧ ∀ r ∈ t.rows, r.2.length = t.cols.length

instance (t : DTable) : Decidable t.Wf := by
  unfold DTable.Wf; infer_instance

/-- `list(set(table_1.index).intersection(set(table_2.index)))`:
the distinct precursor keys present in both tables.  (Python's set
order is arbitrary; all uses below are permutation-invariant.) -/
def sharedPrecursors (t1 t2 : DTable) : List String :=
  ((t1.keys.filter (fun k => t2.keys.contains k))).dedup

/-- `_calculate_deltas_abs`: `np.nanmedian(values1 - values2)`. -/
def deltasAbs (v1 v2 : List ℚ) : Option ℚ :=
  nanmedian ((v1.zip v2).map (fun p => some (p.1 - p.2)))

/-- `_calculate_deltas_rel`: `np.nanmedian((values1 - values2) / (values1 + values2) * 2)`.
A zero denominator is modelled as an undefined entry (`none`); in the
source a `0/0` entry is `nan` (dropped by `nanmedian`) — every theorem
touching relative mode excludes zero denominators, so the nonzero
numerator sub-case (float `inf`) is never exercised. -/
def deltasRel (v1 v2 : List ℚ) : Option ℚ :=
  nanmedian ((v1.zip v2).map (fun p =>
    if p.1 + p.2 = 0 then none
    else some ((p.1 - p.2) / (p.1 + p.2) * 2)))

/-- Column selection `table.loc[shared][c].values`: raises `KeyError`
when `c` is not a column, otherwise the per-key entries. -/
def getCol (t : DTable) (keys : List String) (c : String) :
    Except PyError (List ℚ) :=
  if t.hasCol c then .ok (keys.map (fun k => t.entryD k c))
  else .error (.keyError c)

/-- The column actually read for dimension `col`: the `_calib` variant
when the `calib` flag is set. -/
def colName (col : String) (calib : Bool) : String :=
  if calib then col ++ "_calib" else col

/-- The loop body of `calculate_distance` over the `offset_dict`
entries (column name, mode), building the list of per-dimension deltas. -/
def calcDeltasList (t1 t2 : DTable) (keys : List String) (calib : Bool) :
    List (String × String) → Except PyError (List (Option ℚ))
  | [] => .ok []
  | (col, mode) :: rest =>
    let c := colName col calib
    if mode = "absolute" then do
      let v1 ← getCol t1 keys c
      let v2 ← getCol t2 keys c
      let ds ← calcDeltasList t1 t2 keys calib rest
      .ok (deltasAbs v1 v2 :: ds)
    else if mode = "relative" then do
      let v1 ← getCol t1 keys c
      let v2 ← getCol t2 keys c
      let ds ← calcDeltasList t1 t2 keys calib rest
      .ok (deltasRel v1 v2 :: ds)
    else .error (.notImplemented mode)

/-- `calculate_distance(table_1, table_2, offset_dict, calib)`:
per-dimension deltas over the shared precursors plus the number of
shared precursors. -/
def calculate_distance (t1 t2 : DTable) (od : List (String × String))
    (calib : Bool) : Except PyError (List (Option ℚ) × Nat) := do
  let keys := sharedPrecursors t1 t2
  let ds ← calcDeltasList t1 t2 keys calib od
  .ok (ds, keys.length)

/-! ### Calibrator (`calib_table`) -/

/-- A dataframe viewed column-wise, as mutated by `calib_table`:
an association list from column name to value list. -/
abbrev CTable := List (String × List ℚ)

/-- Column read `table[c]`: `KeyError` when absent is modelled by `none`. -/
def lookupCol (t : CTable) (c : String) : Option (List ℚ) :=
  (t.find? (fun p => p.1 = c)).map Prod.snd

/-- `c in table.columns`. -/
def hasCol2 (t : CTable) (c : String) : Bool := t.any (fun p => p.1 = c)

/-- `delta[c]` on the offset record (a pandas Series): `none` models the
`KeyError` on a missing key. -/
def deltaGet (d : List (String × ℚ)) (c : String) : Option ℚ :=
  (d.find? (fun p => p.1 = c)).map Prod.snd

/-- Column assignment `table[c] = v`: overwrite when present, append
when absent. -/
def setCol (t : CTable) (c : String) (v : List ℚ) : CTable :=
  if t.any (fun p => p.1 = c) then
    t.map (fun p => if p.1 = c then (c, v) else p)
  else t ++ [(c, v)]

/-- `calib_table(table, delta, offset_dict)`.  Per dimension `col`:
pick `col_` as `col + "_apex"` exactly when `col` is absent and the apex
variant present; in absolute mode write `table[col_] - delta[col]` to
`col + "_calib"`; in relative mode write `(1 - delta[col_]) * table[col]`
(the source indexes `delta` by `col_` and the table by `col` here);
otherwise raise `NotImplementedError`. -/
def calib_table (t : CTable) (delta : List (String × ℚ)) :
    List (String × String) → Except PyError CTable
  | [] => .ok t
  | (col, mode) :: rest =>
    let col_ := if !(hasCol2 t col) && hasCol2 t (col ++ "_apex") then
        col ++ "_apex"
      else col
    if mode = "absolute" then
      match lookupCol t col_ with
      | none => .error (.keyError col_)
      | some v =>
        match deltaGet delta col with
        | none => .error (.keyError col)
        | some dv =>
          calib_table (setCol t (col ++ "_calib") (v.map (fun x => x - dv)))
            delta rest
    else if mode = "relative" then
      match deltaGet delta col_ with
      | none => .error (.keyError col_)
      | some dv =>
        match lookupCol t col with
        | none => .error (.keyError col)
        | some v =>
          calib_table (setCol t (col ++ "_calib") (v.map (fun x => (1 - dv) * x)))
            delta rest
    else .error (.notImplemented mode)

/-! ### Global aligner (`align`, `align_datasets` post-processing) -/

/-- One design-matrix row of `align`: `lines = np.zeros(len(filenames)-1);
lines[start_idx:end_idx] = 1`. -/
def buildLine (filenames : List String) (a b : String) : List ℚ :=
  let i := filenames.indexOf a
  let j := filenames.indexOf b
  (List.range (filenames.length - 1)).map (fun k => if i ≤ k ∧ k < j then 1 else 0)

/-- The full design matrix over the compared pairs (`deltas.index`). -/
def buildMatrix (pairs : List (String × String)) (filenames : List String) :
    List (List ℚ) :=
  pairs.map (fun p => buildLine filenames p.1 p.2)

/-- `~deltas.isnull().any(axis=1)` for one row: no undefined entry. -/
def notNanRow (row : List (Option ℚ)) : Bool := row.all (fun o => o.isSome)

/-- Boolean-mask indexing `arr[mask]`. -/
def applyMask {α : Type} (l : List α) (mask : List Bool) : List α :=
  ((l.zip mask).filter (fun p => p.2)).map (fun p => p.1)

/-- The system `align` hands to the regression after dropping undefined
rows, plus the under-determination warning flag: the source tests
`len(deltas) < matrix.shape[1]`, i.e. the unfiltered row count against
`len(filenames) - 1`. -/
def alignSystem (pairs : List (String × String))
    (deltasM : List (List (Option ℚ))) (filenames : List String) :
    List (List ℚ) × List (List (Option ℚ)) × Bool :=
  let matrix := buildMatrix pairs filenames
  let mask := deltasM.map notNanRow
  (applyMask matrix mask, applyMask deltasM mask,
   decide (deltasM.length < filenames.length - 1))

/-- `align` with the external least-squares solver (sklearn
`LinearRegression` + `predict(np.eye(n-1))`) abstracted as `solve`:
the warning is only logged, the regression always proceeds. -/
def align (solve : List (List ℚ) → List (List ℚ) → List (List ℚ))
    (pairs : List (String × String)) (deltasM : List (List (Option ℚ)))
    (filenames : List String) : List (List ℚ) :=
  let sys := alignSystem pairs deltasM filenames
  solve sys.1 (sys.2.1.map (fun row => row.map (fun o => o.getD 0)))

/-- `align_datasets` post-processing, one dimension at a time: the
regression returns one offset per run except the reference run, for
which a zero row is appended (`pd.concat` with `np.zeros`). -/
def appendReference (x : List ℚ) : List ℚ := x ++ [0]

/-- `alignment -= alignment.mean()`, per dimension. -/
def meanCenter (l : List ℚ) : List ℚ :=
  l.map (fun v => v - l.sum / (l.length : ℚ))

/-- The final per-run offsets of one dimension in `align_datasets`. -/
def finalOffsets (x : List ℚ) : List ℚ := meanCenter (appendReference x)

/-! ### Match probability (`get_probability`) and the acceptance test -/

/-- The Mahalanobis squared distance with the diagonal covariance built
directly from the standard-deviation vector (`sigma * np.eye(len(sigma))`):
`(x-mu)^T diag(sigma)^{-1} (x-mu)`. -/
def mahalanobisSq (x mu sigma : List ℚ) : ℚ :=
  (((x.zip mu).zip sigma).map
    (fun q => (q.1.1 - q.1.2) * (q.1.1 - q.1.2) / q.2)).sum

/-- `get_probability`: `np.linalg.inv` raises on a singular diagonal
covariance (zero determinant), which the `try/except` turns into `nan`
(`none`); otherwise `stats.chi2.cdf(m_dist, len(mu))`, with the external
chi-squared CDF abstracted as `cdf`. -/
def get_probability (cdf : ℚ → ℕ → ℚ) (x mu sigma : List ℚ) : Option ℚ :=
  if sigma.prod = 0 then none
  else some (cdf (mahalanobisSq x mu sigma) mu.length)

/-- The Matcher's acceptance comparison `matching_p < match_p_min`:
pandas evaluates `NaN < t` as `False`. -/
def probPasses (p : Option ℚ) (threshold : ℚ) : Bool :=
  match p with
  | none => false
  | some q => decide (q < threshold)

/-! ### Reference builder (`match_datasets` grouping, `convert_decoy`) -/

/-- One pooled identification row, restricted to the fields the claims
touch: owning run, precursor key, and the decoy flag as the 0/1 float
it is prior to `groupby.mean()`. -/
structure IdRow where
  shortname : String
  precursor : String
  decoy : ℚ
deriving DecidableEq, Repr

/-- The index of `xx.groupby('precursor').mean()`: the distinct
precursor keys of the pooled rows (pandas sorts them; membership is all
the claims use). -/
def referenceKeys (xx : List IdRow) : List String :=
  (xx.map (fun r => r.precursor)).dedup

/-- The pooled rows of one matching group:
`x[x['shortname'].apply(lambda s: s in files_from)]`. -/
def groupRows (filesFrom : List String) (x : List IdRow) : List IdRow :=
  x.filter (fun r => filesFrom.contains r.shortname)

/-- The reference index built by `match_datasets` for one matching
group, `none` when the `len(files_from) > 2` guard skips the group. -/
def groupReference (filesFrom : List String) (x : List IdRow) :
    Option (List String) :=
  if filesFrom.length > 2 then some (referenceKeys (groupRows filesFrom x))
  else none

/-- In how many distinct runs of the pooled rows a precursor was
observed (the quantity the claim about the ≥3-runs restriction is
stated in). -/
def runsObserving (xx : List IdRow) (p : String) : Nat :=
  (((xx.filter (fun r => r.precursor = p)).map (fun r => r.shortname)).dedup).length

/-- `convert_decoy`: `True` iff the averaged flag equals exactly 1. -/
def convert_decoy (q : ℚ) : Bool := if q = 1 then true else false

/-- The decoy values of one precursor group prior to averaging. -/
def decoyGroup (xx : List IdRow) (p : String) : List ℚ :=
  (xx.filter (fun r => r.precursor = p)).map (fun r => r.decoy)

/-- `groupby('precursor').mean()` of the decoy column at key `p`. -/
def groupMeanDecoy (xx : List IdRow) (p : String) : ℚ :=
  (decoyGroup xx p).sum / ((decoyGroup xx p).length : ℚ)

/-! ### Merging accepted matches (`match_datasets` tail) -/

/-- A pandas cell value: number, string, or `NaN`. -/
inductive PVal where
  | num : ℚ → PVal
  | str : String → PVal
  | nan : PVal
deriving DecidableEq, Repr

/-- A dataframe row as an association list from column name to value. -/
abbrev PRow := List (String × PVal)

/-- Cell read. -/
def getField (r : PRow) (c : String) : Option PVal :=
  (r.find? (fun p => p.1 = c)).map Prod.snd

/-- Cell write: overwrite when the column is present, append otherwise. -/
def setField (r : PRow) (c : String) (v : PVal) : PRow :=
  if r.any (fun p => p.1 = c) then
    r.map (fun p => if p.1 = c then (c, v) else p)
  else r ++ [(c, v)]

/-- Column assignment `df[c] = v` on every row. -/
def setColumnAll (df : List PRow) (c : String) (v : PVal) : List PRow :=
  df.map (fun r => setField r c v)

/-- Projection `matched[shared_columns]`; the default is never reached
since the shared columns are present in `matched`. -/
def projectRow (r : PRow) (cols : List String) : PRow :=
  cols.map (fun c => (c, (getField r c).getD PVal.nan))

/-- The merge step of `match_datasets`: `df['type'] = 'msms'`;
`df['matching_p'] = np.nan`; then
`pd.concat([df, matched[shared_columns]], ignore_index=True)`. -/
def mergeMatches (df matched : List PRow) (sharedCols : List String) :
    List PRow :=
  setColumnAll (setColumnAll df "type" (PVal.str "msms")) "matching_p" PVal.nan
    ++ matched.map (fun r => projectRow r sharedCols)

/-! ### Spec-side restatement of the distance estimator

`specDistance` follows the specification's words for comparison with
`calculate_distance`: over the intersection of the two tables' precursor
keys, per dimension the median of `v1 - v2` in absolute mode and the
median of `2*(v1-v2)/(v1+v2)` in relative mode, plus the intersection
size as the weight. -/

/-- The per-dimension offsets and weight as the specification states
them. -/
def specDistance (t1 t2 : DTable) (od : List (String × String))
    (calib : Bool) : List (Option ℚ) × Nat :=
  (od.map (fun p =>
     let c := colName p.1 calib
     let keys := sharedPrecursors t1 t2
     let v1 := keys.map (fun k => t1.entryD k c)
     let v2 := keys.map (fun k => t2.entryD k c)
     if p.2 = "absolute" then
       median ((v1.zip v2).map (fun q => q.1 - q.2))
     else
       median ((v1.zip v2).map (fun q => 2 * (q.1 - q.2) / (q.1 + q.2)))),
   (sharedPrecursors t1 t2).length)

/-- A mode the core implements. -/
def validMode (m : String) : Prop := m = "absolute" ∨ m = "relative"

instance (m : String) : Decidable (validMode m) := by
  unfold validMode; infer_instance

/-! ## Helper lemmas -/

theorem median_const (l : List ℚ) (c : ℚ) (hne : l ≠ [])
    (h : ∀ x ∈ l, x = c) : median l = some c := by
  have hpos : 0 < l.length := List.length_pos.mpr hne
  have hperm := List.perm_insertionSort (fun a b : ℚ => a ≤ b) l
  have hlen : (l.insertionSort (fun a b => a ≤ b)).length = l.length :=
    hperm.length_eq
  have hget : ∀ i, i < l.length →
      (l.insertionSort (fun a b => a ≤ b)).getD i 0 = c := by
    intro i hi
    have hi' : i < (l.insertionSort (fun a b => a ≤ b)).length := by
      rw [hlen]; exact hi
    rw [List.getD_eq_getElem _ _ hi']
    exact h _ (hperm.subset (List.getElem_mem hi'))
  have hhalf : l.length / 2 < l.length := Nat.div_lt_self hpos one_lt_two
  have hhalf' : l.length / 2 - 1 < l.length :=
    lt_of_le_of_lt (Nat.sub_le _ _) hhalf
  unfold median
  rw [if_neg hne]
  by_cases hodd : l.length % 2 = 1
  · rw [if_pos hodd, hget _ hhalf]
  · rw [if_neg hodd, hget _ hhalf, hget _ hhalf']
    norm_num

theorem sum_map_sub_const (l : List ℚ) (c : ℚ) :
    (l.map (fun v => v - c)).sum = l.sum - l.length * c := by
  induction l with
  | nil => simp
  | cons a t ih =>
    simp only [List.map_cons, List.sum_cons, List.length_cons, ih]
    push_cast
    ring

theorem sum_le_length_of_zero_one (g : List ℚ)
    (h01 : ∀ v ∈ g, v = 0 ∨ v = 1) : g.sum ≤ g.length := by
  induction g with
  | nil => simp
  | cons a t ih =>
    have ha := h01 a (by simp)
    have ht := ih (fun v hv => h01 v (by simp [hv]))
    simp only [List.sum_cons, List.length_cons]
    push_cast
    rcases ha with rfl | rfl <;> linarith

theorem sum_eq_length_iff_all_one (g : List ℚ)
    (h01 : ∀ v ∈ g, v = 0 ∨ v = 1) :
    g.sum = (g.length : ℚ) ↔ ∀ v ∈ g, v = 1 := by
  induction g with
  | nil => simp
  | cons a t ih =>
    have ha := h01 a (by simp)
    have ht01 : ∀ v ∈ t, v = 0 ∨ v = 1 := fun v hv => h01 v (by simp [hv])
    have hle := sum_le_length_of_zero_one t ht01
    simp only [List.sum_cons, List.length_cons]
    push_cast
    rcases ha with rfl | rfl
    · constructor
      · intro h; exfalso; linarith
      · intro h; exfalso
        have := h 0 (by simp)
        norm_num at this
    · have hstep : (1 + t.sum = t.length + 1) ↔ t.sum = (t.length : ℚ) := by
        constructor <;> intro <;> linarith
      rw [hstep, ih ht01]
      simp

/-! ## Claims -/

/-- C4: in every alignment pass, the appended reference-run row is
identically zero before mean-centering, and after subtracting the
per-dimension mean over all runs the final offsets sum to exactly zero
in every dimension. -/
theorem final_offsets_reference_zero_and_sum_zero (x : List ℚ) :
    (appendReference x).getLast? = some 0 ∧ (finalOffsets x).sum = 0 := by
  constructor
  · unfold appendReference
    exact List.getLast?_concat x
  · unfold finalOffsets meanCenter
    rw [sum_map_sub_const]
    have hlen : ((appendReference x).length : ℚ) ≠ 0 := by
      have hn : (appendReference x).length = x.length + 1 := by
        simp [appendReference]
      rw [hn]
      exact_mod_cast Nat.succ_ne_zero x.length
    field_simp

/-- C5: when the diagonal covariance built from the standard deviations
is singular (some standard deviation is zero), `get_probability`
returns the undefined value (`none`, modelling `nan`) instead of
raising, and an undefined probability never passes the acceptance test
`matching_p < match_p_min`, so such candidates are always rejected. -/
theorem get_probability_singular_fail_closed (cdf : ℚ → ℕ → ℚ)
    (x mu sigma : List ℚ) (h : ∃ s ∈ sigma, s = 0) :
    get_probability cdf x mu sigma = none ∧
      ∀ t, probPasses (get_probability cdf x mu sigma) t = false := by
  have hprod : sigma.prod = 0 := by
    obtain ⟨s, hs, rfl⟩ := h
    exact List.prod_eq_zero hs
  have h1 : get_probability cdf x mu sigma = none := by
    unfold get_probability
    rw [if_pos hprod]
  exact ⟨h1, fun t => by rw [h1]; rfl⟩

/-- Witness for C5 at a concrete singular input. -/
theorem get_probability_singular_fail_closed_w :
    get_probability (fun _ _ => 0) [1, 2] [0, 0] [1, 0] = none ∧
      ∀ t, probPasses (get_probability (fun _ _ => 0) [1, 2] [0, 0] [1, 0]) t
        = false :=
  get_probability_singular_fail_closed (fun _ _ => 0) [1, 2] [0, 0] [1, 0]
    ⟨0, by norm_num, rfl⟩

/-- C9: the averaged decoy/target flag is converted back to a boolean
by a threshold-at-one rule: the result is true iff the per-precursor
mean equals exactly 1, so a group of 0/1 flags maps to true iff every
flag is 1 (a group mixing 0 and 1 maps to false, unlike a >0.5
majority rule). -/
theorem convert_decoy_threshold_at_one (xx : List IdRow) (p : String)
    (hne : decoyGroup xx p ≠ [])
    (h01 : ∀ v ∈ decoyGroup xx p, v = 0 ∨ v = 1) :
    (∀ q : ℚ, convert_decoy q = true ↔ q = 1) ∧
    (convert_decoy (groupMeanDecoy xx p) = true ↔
      ∀ v ∈ decoyGroup xx p, v = 1) := by
  have hconv : ∀ q : ℚ, convert_decoy q = true ↔ q = 1 := by
    intro q
    unfold convert_decoy
    by_cases h : q = 1 <;> simp [h]
  refine ⟨hconv, ?_⟩
  rw [hconv]
  unfold groupMeanDecoy
  have hlen : ((decoyGroup xx p).length : ℚ) ≠ 0 := by
    have hpos := List.length_pos.mpr hne
    positivity
  rw [div_eq_one_iff_eq hlen]
  exact sum_eq_length_iff_all_one _ h01

/-- Witness for C9 on a three-run pool where precursor P mixes decoy
flags 1, 1, 0: the mean is 2/3 and the converted flag is false. -/
theorem convert_decoy_threshold_at_one_w :
    (convert_decoy (groupMeanDecoy
        [⟨"f1", "P", 1⟩, ⟨"f2", "P", 1⟩, ⟨"f3", "P", 0⟩] "P") = true ↔
      ∀ v ∈ decoyGroup
        [⟨"f1", "P", 1⟩, ⟨"f2", "P", 1⟩, ⟨"f3", "P", 0⟩] "P", v = 1) :=
  (convert_decoy_threshold_at_one
    [⟨"f1", "P", 1⟩, ⟨"f2", "P", 1⟩, ⟨"f3", "P", 0⟩] "P"
    (by decide) (by decide)).2

theorem applyMask_map_self {α : Type} (f : α → Bool) (l : List α) :
    applyMask l (l.map f) = l.filter f := by
  induction l with
  | nil => rfl
  | cons a t ih =>
    cases h : f a <;>
      simp [applyMask, List.filter_cons, h] <;>
      simpa [applyMask] using ih

theorem applyMask_zip_pair {α β : Type} (f : β → Bool) :
    ∀ (l1 : List α) (l2 : List β), l1.length = l2.length →
      ((l1.zip l2).filter (fun q => f q.2)) =
        (applyMask l1 (l2.map f)).zip (applyMask l2 (l2.map f))
  | [], [], _ => rfl
  | [], _ :: _, h => by simp at h
  | _ :: _, [], h => by simp at h
  | a :: t, b :: s, h => by
    have hl : t.length = s.length := by simpa using h
    have ih := applyMask_zip_pair f t s hl
    cases hfb : f b <;>
      simp [applyMask, List.filter_cons, hfb] <;>
      simpa [applyMask] using ih

/-- C3 counterexample: in a 3-run matching group, the pooled precursor
Q observed in exactly one run still enters the reference index built by
`match_datasets`. -/
theorem group_reference_counterexample :
    groupReference ["f1", "f2", "f3"]
        [⟨"f1", "P", 0⟩, ⟨"f2", "P", 0⟩, ⟨"f3", "P", 0⟩, ⟨"f1", "Q", 0⟩]
      = some ["P", "Q"] ∧
    runsObserving (groupRows ["f1", "f2", "f3"]
        [⟨"f1", "P", 0⟩, ⟨"f2", "P", 0⟩, ⟨"f3", "P", 0⟩, ⟨"f1", "Q", 0⟩]) "Q"
      = 1 ∧
    1 < 3 := by
  refine ⟨by decide, by decide, by norm_num⟩

/-- C3 (amended): the ≥3 restriction is on the group's run count, not
on per-precursor observations — the reference is built exactly for
groups with more than 2 source runs and then indexes every precursor
key present in the pooled identifications, regardless of how many runs
observed it. -/
theorem group_reference_all_pooled_keys (filesFrom : List String)
    (x : List IdRow) :
    (filesFrom.length ≤ 2 → groupReference filesFrom x = none) ∧
    (2 < filesFrom.length →
      groupReference filesFrom x
        = some (referenceKeys (groupRows filesFrom x)) ∧
      ∀ p, p ∈ referenceKeys (groupRows filesFrom x) ↔
        ∃ r ∈ groupRows filesFrom x, r.precursor = p) := by
  constructor
  · intro h
    unfold groupReference
    rw [if_neg (by omega)]
  · intro h
    refine ⟨by unfold groupReference; rw [if_pos h], fun p => ?_⟩
    unfold referenceKeys
    rw [List.mem_dedup, List.mem_map]

/-- Witness for C3 (amended) on a concrete 3-run group. -/
theorem group_reference_all_pooled_keys_w :
    groupReference ["f1", "f2", "f3"] [⟨"f1", "P", 0⟩, ⟨"f1", "Q", 0⟩]
        = some (referenceKeys (groupRows ["f1", "f2", "f3"]
            [⟨"f1", "P", 0⟩, ⟨"f1", "Q", 0⟩])) ∧
    ∀ p, p ∈ referenceKeys (groupRows ["f1", "f2", "f3"]
            [⟨"f1", "P", 0⟩, ⟨"f1", "Q", 0⟩]) ↔
      ∃ r ∈ groupRows ["f1", "f2", "f3"] [⟨"f1", "P", 0⟩, ⟨"f1", "Q", 0⟩],
        r.precursor = p :=
  (group_reference_all_pooled_keys ["f1", "f2", "f3"]
    [⟨"f1", "P", 0⟩, ⟨"f1", "Q", 0⟩]).2 (by norm_num)

/-- C7 counterexample: 3 runs, 3 pairwise comparisons of which 2 are
undefined — only 1 valid comparison remains, fewer than the 2 unknowns,
yet the source's test `len(deltas) < matrix.shape[1]` compares the
unfiltered count (3 < 2) and does not warn. -/
theorem align_warn_counterexample :
    ((alignSystem [("A", "B"), ("A", "C"), ("B", "C")]
        [[some 1], [none], [none]] ["A", "B", "C"]).2.1).length = 1 ∧
    1 < 3 - 1 ∧
    (alignSystem [("A", "B"), ("A", "C"), ("B", "C")]
        [[some 1], [none], [none]] ["A", "B", "C"]).2.2 = false := by
  refine ⟨by decide, by norm_num, by decide⟩

/-- C7 (amended): rows with an undefined distance in any dimension are
dropped, in order, from both the observations and the design matrix
before fitting; the non-fatal under-determination warning fires exactly
when the TOTAL number of pairwise comparisons (before dropping) is
smaller than the number of unknowns; and the regression proceeds to a
result regardless of the flag. -/
theorem align_drop_and_warn (pairs : List (String × String))
    (deltasM : List (List (Option ℚ))) (filenames : List String)
    (h : deltasM.length = pairs.length) :
    (alignSystem pairs deltasM filenames).2.1 = deltasM.filter notNanRow ∧
    ((buildMatrix pairs filenames).zip deltasM).filter (fun q => notNanRow q.2)
      = ((alignSystem pairs deltasM filenames).1).zip
          ((alignSystem pairs deltasM filenames).2.1) ∧
    ((alignSystem pairs deltasM filenames).2.2 = true ↔
      deltasM.length < filenames.length - 1) ∧
    ∀ solve, align solve pairs deltasM filenames =
      solve ((alignSystem pairs deltasM filenames).1)
        (((alignSystem pairs deltasM filenames).2.1).map
          (fun row => row.map (fun o => o.getD 0))) := by
  have hlen : (buildMatrix pairs filenames).length = deltasM.length := by
    simp [buildMatrix, h]
  refine ⟨?_, ?_, ?_, fun solve => rfl⟩
  · exact applyMask_map_self notNanRow deltasM
  · exact applyMask_zip_pair notNanRow (buildMatrix pairs filenames) deltasM hlen
  · simp [alignSystem]

/-- Witness for C7 (amended) at a concrete system with one undefined
row. -/
theorem align_drop_and_warn_w :
    (alignSystem [("A", "B"), ("B", "C")] [[some 1], [none]]
        ["A", "B", "C"]).2.1
      = [[some 1], [none]].filter notNanRow ∧
    ((buildMatrix [("A", "B"), ("B", "C")] ["A", "B", "C"]).zip
        [[some 1], [none]]).filter (fun q => notNanRow q.2)
      = ((alignSystem [("A", "B"), ("B", "C")] [[some 1], [none]]
            ["A", "B", "C"]).1).zip
          ((alignSystem [("A", "B"), ("B", "C")] [[some 1], [none]]
            ["A", "B", "C"]).2.1) ∧
    ((alignSystem [("A", "B"), ("B", "C")] [[some 1], [none]]
        ["A", "B", "C"]).2.2 = true ↔
      ([[some (1 : ℚ)], [none]] : List (List (Option ℚ))).length
        < (["A", "B", "C"] : List String).length - 1) ∧
    ∀ solve, align solve [("A", "B"), ("B", "C")] [[some 1], [none]]
        ["A", "B", "C"] =
      solve ((alignSystem [("A", "B"), ("B", "C")] [[some 1], [none]]
            ["A", "B", "C"]).1)
        (((alignSystem [("A", "B"), ("B", "C")] [[some 1], [none]]
            ["A", "B", "C"]).2.1).map
          (fun row => row.map (fun o => o.getD 0))) :=
  align_drop_and_warn [("A", "B"), ("B", "C")] [[some 1], [none]]
    ["A", "B", "C"] (by decide)

/-- C2: on a features-style table that stores only the apex variant
`mz_apex` of a relative-mode dimension, `calib_table` indexes the
offset record by the fallback name and reads the absent canonical
column, so it raises `KeyError` instead of writing
`mz_calib = (1 - delta[mz]) * mz_apex`; the same fallback works as the
specification describes in absolute mode. -/
theorem calib_table_apex_relative_raises :
    calib_table [("mz_apex", [300])] [("mz", 1 / 1000)] [("mz", "relative")]
      = .error (.keyError "mz_apex") ∧
    calib_table [("mz_apex", [300])] [("mz", 1 / 1000), ("mz_apex", 1 / 1000)]
        [("mz", "relative")]
      = .error (.keyError "mz") ∧
    calib_table [("rt_apex", [50])] [("rt", 2)] [("rt", "absolute")]
      = .ok [("rt_apex", [50]), ("rt_calib", [48])] := by
  refine ⟨rfl, rfl, ?_⟩
  simp +decide [calib_table, hasCol2, lookupCol, deltaGet, setCol, List.find?]
  norm_num

theorem zip_self {α : Type} (l : List α) :
    l.zip l = l.map (fun a => (a, a)) := by
  induction l with
  | nil => rfl
  | cons a t ih => simp [List.zip_cons_cons, ih]

theorem getCol_ok (t : DTable) (keys : List String) (c : String)
    (h : t.hasCol c = true) :
    getCol t keys c = .ok (keys.map (fun k => t.entryD k c)) := by
  unfold getCol
  rw [if_pos h]

theorem calcDeltasList_cons_abs (t1 t2 : DTable) (keys : List String)
    (calib : Bool) (col : String) (rest : List (String × String))
    (ds : List (Option ℚ))
    (h1 : t1.hasCol (colName col calib) = true)
    (h2 : t2.hasCol (colName col calib) = true)
    (h3 : calcDeltasList t1 t2 keys calib rest = .ok ds) :
    calcDeltasList t1 t2 keys calib ((col, "absolute") :: rest)
      = .ok (deltasAbs (keys.map (fun k => t1.entryD k (colName col calib)))
          (keys.map (fun k => t2.entryD k (colName col calib))) :: ds) := by
  simp only [calcDeltasList]
  rw [if_pos trivial, getCol_ok t1 keys _ h1, getCol_ok t2 keys _ h2, h3]
  rfl

theorem calcDeltasList_cons_rel (t1 t2 : DTable) (keys : List String)
    (calib : Bool) (col : String) (rest : List (String × String))
    (ds : List (Option ℚ))
    (h1 : t1.hasCol (colName col calib) = true)
    (h2 : t2.hasCol (colName col calib) = true)
    (h3 : calcDeltasList t1 t2 keys calib rest = .ok ds) :
    calcDeltasList t1 t2 keys calib ((col, "relative") :: rest)
      = .ok (deltasRel (keys.map (fun k => t1.entryD k (colName col calib)))
          (keys.map (fun k => t2.entryD k (colName col calib))) :: ds) := by
  simp only [calcDeltasList]
  rw [if_pos trivial, getCol_ok t1 keys _ h1, getCol_ok t2 keys _ h2, h3]
  rfl

theorem calcDeltasList_cons_bad (t1 t2 : DTable) (keys : List String)
    (calib : Bool) (col mode : String) (rest : List (String × String))
    (hm1 : mode ≠ "absolute") (hm2 : mode ≠ "relative") :
    calcDeltasList t1 t2 keys calib ((col, mode) :: rest)
      = .error (.notImplemented mode) := by
  simp only [calcDeltasList]
  rw [if_neg (by simpa using hm1), if_neg (by simpa using hm2)]

theorem sharedPrecursors_self (t : DTable) (h : t.keys.Nodup) :
    sharedPrecursors t t = t.keys := by
  unfold sharedPrecursors
  have hf : t.keys.filter (fun k => t.keys.contains k) = t.keys := by
    apply List.filter_eq_self.mpr
    intro a ha
    simpa using ha
  rw [hf, List.dedup_eq_self.mpr h]

theorem calcDeltasList_self (t : DTable) (keys : List String) (calib : Bool)
    (hne : keys ≠ []) (od : List (String × String))
    (hcols : ∀ p ∈ od, t.hasCol (colName p.1 calib) = true)
    (hmodes : ∀ p ∈ od, validMode p.2)
    (hrel : ∀ p ∈ od, p.2 = "relative" →
      ∀ k ∈ keys, t.entryD k (colName p.1 calib) ≠ 0) :
    calcDeltasList t t keys calib od = .ok (od.map (fun _ => some 0)) := by
  induction od with
  | nil => rfl
  | cons hd rest ih =>
    obtain ⟨col, mode⟩ := hd
    have hcol : t.hasCol (colName col calib) = true := hcols (col, mode) (by simp)
    have hmode := hmodes (col, mode) (by simp)
    have ih' := ih (fun p hp => hcols p (by simp [hp]))
      (fun p hp => hmodes p (by simp [hp]))
      (fun p hp hq => hrel p (by simp [hp]) hq)
    have hvne : keys.map (fun k => t.entryD k (colName col calib)) ≠ [] := by
      simpa using hne
    rcases hmode with hm | hm <;> subst hm
    · rw [calcDeltasList_cons_abs t t keys calib col rest _ hcol hcol ih']
      have habs : deltasAbs (keys.map (fun k => t.entryD k (colName col calib)))
          (keys.map (fun k => t.entryD k (colName col calib))) = some 0 := by
        unfold deltasAbs nanmedian
        rw [zip_self, List.map_map, List.map_map]
        have harg : ∀ f : ℚ → Option ℚ, (∀ a : ℚ, f a = some 0) →
            keys.map (f ∘ (fun k => t.entryD k (colName col calib)))
              = keys.map (fun _ => some (0 : ℚ)) := by
          intro f hf
          apply List.map_congr_left
          intro k _
          simp [Function.comp, hf]
        rw [harg ((fun p : ℚ × ℚ => some (p.1 - p.2)) ∘ (fun a => (a, a)))
          (fun a => by simp [Function.comp])]
        have hfm : (keys.map (fun _ => some (0 : ℚ))).filterMap id
            = keys.map (fun _ => (0 : ℚ)) := by
          induction keys with
          | nil => rfl
          | cons a s ihs => simp [ihs]
        rw [hfm]
        apply median_const _ 0 (by simp [hne])
        intro x hx
        rcases List.mem_map.mp hx with ⟨k, _, rfl⟩
        rfl
      simp [habs]
    · rw [calcDeltasList_cons_rel t t keys calib col rest _ hcol hcol ih']
      have hrelc : ∀ k ∈ keys, t.entryD k (colName col calib) ≠ 0 :=
        hrel (col, "relative") (by simp) rfl
      have hrelv : deltasRel (keys.map (fun k => t.entryD k (colName col calib)))
          (keys.map (fun k => t.entryD k (colName col calib))) = some 0 := by
        unfold deltasRel nanmedian
        rw [zip_self, List.map_map, List.map_map]
        have harg : keys.map (((fun p : ℚ × ℚ =>
              if p.1 + p.2 = 0 then none
              else some ((p.1 - p.2) / (p.1 + p.2) * 2)) ∘ (fun a => (a, a)))
              ∘ (fun k => t.entryD k (colName col calib)))
            = keys.map (fun _ => some (0 : ℚ)) := by
          apply List.map_congr_left
          intro k hk
          have ha : t.entryD k (colName col calib) ≠ 0 := hrelc k hk
          have hsum : t.entryD k (colName col calib)
              + t.entryD k (colName col calib) ≠ 0 := by
            intro hs
            apply ha
            linarith
          simp [Function.comp, hsum]
        rw [harg]
        have hfm : (keys.map (fun _ => some (0 : ℚ))).filterMap id
            = keys.map (fun _ => (0 : ℚ)) := by
          induction keys with
          | nil => rfl
          | cons a s ihs => simp [ihs]
        rw [hfm]
        apply median_const _ 0 (by simp [hne])
        intro x hx
        rcases List.mem_map.mp hx with ⟨k, _, rfl⟩
        rfl
      simp [hrelv]

/-- C8 counterexample: the empty table is a precursor-indexed table,
and its self-comparison distance is the undefined median (`nan`), not
exactly 0. -/
theorem self_distance_empty_counterexample :
    calculate_distance ⟨["mass"], []⟩ ⟨["mass"], []⟩ [("mass", "absolute")]
        false
      = .ok ([none], 0) ∧ (none : Option ℚ) ≠ some 0 :=
  ⟨rfl, by simp⟩

/-- C8 (amended): for every nonempty precursor-indexed table (unique
keys) whose relative-mode columns contain no zero value, comparison
with itself yields exactly 0 for every absolute-mode and relative-mode
distance and the shared-key count equals the number of rows; the empty
table instead yields the undefined (`nan`) median. -/
theorem self_distance_zero (t : DTable) (od : List (String × String))
    (calib : Bool) (hnodup : t.keys.Nodup) (hne : t.rows ≠ [])
    (hcols : ∀ p ∈ od, t.hasCol (colName p.1 calib) = true)
    (hmodes : ∀ p ∈ od, validMode p.2)
    (hrel : ∀ p ∈ od, p.2 = "relative" →
      ∀ k ∈ t.keys, t.entryD k (colName p.1 calib) ≠ 0) :
    calculate_distance t t od calib
      = .ok (od.map (fun _ => some 0), t.rows.length) := by
  have hkeys : sharedPrecursors t t = t.keys := sharedPrecursors_self t hnodup
  have hkne : t.keys ≠ [] := by
    simpa [DTable.keys] using hne
  simp only [calculate_distance]
  rw [hkeys, calcDeltasList_self t t.keys calib hkne od hcols hmodes hrel]
  simp only [DTable.keys, List.length_map]
  rfl

/-- Witness for C8 (amended) on a concrete two-row table with an
absolute and a relative dimension. -/
theorem self_distance_zero_w :
    calculate_distance ⟨["mass", "rt"], [("A", [10, 100]), ("B", [20, 200])]⟩
        ⟨["mass", "rt"], [("A", [10, 100]), ("B", [20, 200])]⟩
        [("mass", "absolute"), ("rt", "relative")] false
      = .ok ([("mass", "absolute"), ("rt", "relative")].map (fun _ => some 0),
          ([("A", ([10, 100] : List ℚ)), ("B", [20, 200])]).length) :=
  self_distance_zero ⟨["mass", "rt"], [("A", [10, 100]), ("B", [20, 200])]⟩
    [("mass", "absolute"), ("rt", "relative")] false
    (by decide) (by decide) (by decide) (by decide) (by decide)

theorem filterMap_id_map_some {α : Type} (l : List α) (f : α → ℚ) :
    (l.map (fun a => some (f a))).filterMap id = l.map f := by
  induction l with
  | nil => rfl
  | cons a t ih => simpa using ih

theorem deltasAbs_eq_median (v1 v2 : List ℚ) :
    deltasAbs v1 v2 = median ((v1.zip v2).map (fun q => q.1 - q.2)) := by
  unfold deltasAbs nanmedian
  rw [filterMap_id_map_some]

theorem deltasRel_eq_median (v1 v2 : List ℚ)
    (h : ∀ q ∈ v1.zip v2, q.1 + q.2 ≠ 0) :
    deltasRel v1 v2
      = median ((v1.zip v2).map (fun q => 2 * (q.1 - q.2) / (q.1 + q.2))) := by
  unfold deltasRel nanmedian
  have hmap : (v1.zip v2).map (fun p =>
        if p.1 + p.2 = 0 then none
        else some ((p.1 - p.2) / (p.1 + p.2) * 2))
      = (v1.zip v2).map (fun p => some (2 * (p.1 - p.2) / (p.1 + p.2))) := by
    apply List.map_congr_left
    intro q hq
    rw [if_neg (h q hq)]
    congr 1
    ring
  rw [hmap, filterMap_id_map_some]

theorem calcDeltasList_spec (t1 t2 : DTable) (keys : List String)
    (calib : Bool) (od : List (String × String))
    (hcols : ∀ p ∈ od, t1.hasCol (colName p.1 calib) = true
      ∧ t2.hasCol (colName p.1 calib) = true)
    (hmodes : ∀ p ∈ od, validMode p.2)
    (hden : ∀ p ∈ od, p.2 = "relative" → ∀ k ∈ keys,
      t1.entryD k (colName p.1 calib) + t2.entryD k (colName p.1 calib) ≠ 0) :
    calcDeltasList t1 t2 keys calib od = .ok (od.map (fun p =>
      if p.2 = "absolute" then
        median (((keys.map (fun k => t1.entryD k (colName p.1 calib))).zip
          (keys.map (fun k => t2.entryD k (colName p.1 calib)))).map
            (fun q => q.1 - q.2))
      else
        median (((keys.map (fun k => t1.entryD k (colName p.1 calib))).zip
          (keys.map (fun k => t2.entryD k (colName p.1 calib)))).map
            (fun q => 2 * (q.1 - q.2) / (q.1 + q.2))))) := by
  induction od with
  | nil => rfl
  | cons hd rest ih =>
    obtain ⟨col, mode⟩ := hd
    have hcol1 := (hcols (col, mode) (by simp)).1
    have hcol2 := (hcols (col, mode) (by simp)).2
    have hmode := hmodes (col, mode) (by simp)
    have ih' := ih (fun p hp => hcols p (by simp [hp]))
      (fun p hp => hmodes p (by simp [hp]))
      (fun p hp hq => hden p (by simp [hp]) hq)
    rcases hmode with hm | hm <;> subst hm
    · rw [calcDeltasList_cons_abs t1 t2 keys calib col rest _ hcol1 hcol2 ih']
      rw [deltasAbs_eq_median]
      simp
    · rw [calcDeltasList_cons_rel t1 t2 keys calib col rest _ hcol1 hcol2 ih']
      have hq : ∀ q ∈ (keys.map (fun k => t1.entryD k (colName col calib))).zip
          (keys.map (fun k => t2.entryD k (colName col calib))),
          q.1 + q.2 ≠ 0 := by
        intro q hq
        rw [List.zip_map'] at hq
        rcases List.mem_map.mp hq with ⟨k, hk, rfl⟩
        exact hden (col, "relative") (by simp) rfl k hk
      rw [deltasRel_eq_median _ _ hq]
      simp

/-- C1: over the intersection of the two tables' precursor keys,
`calculate_distance` computes per dimension the median of the paired
differences — `v1 - v2` in absolute mode, `2*(v1-v2)/(v1+v2)` in
relative mode (denominators assumed nonzero) — and returns one scalar
per dimension plus the intersection size as the weight, exactly as the
spec-side `specDistance` states. -/
theorem calculate_distance_spec (t1 t2 : DTable)
    (od : List (String × String)) (calib : Bool)
    (hcols : ∀ p ∈ od, t1.hasCol (colName p.1 calib) = true
      ∧ t2.hasCol (colName p.1 calib) = true)
    (hmodes : ∀ p ∈ od, validMode p.2)
    (hden : ∀ p ∈ od, p.2 = "relative" → ∀ k ∈ sharedPrecursors t1 t2,
      t1.entryD k (colName p.1 calib) + t2.entryD k (colName p.1 calib) ≠ 0) :
    calculate_distance t1 t2 od calib = .ok (specDistance t1 t2 od calib) := by
  simp only [calculate_distance, specDistance]
  rw [calcDeltasList_spec t1 t2 (sharedPrecursors t1 t2) calib od hcols
    hmodes hden]
  rfl

/-- Witness for C1 on two concrete tables sharing precursor A, with an
absolute and a relative dimension. -/
theorem calculate_distance_spec_w :
    calculate_distance ⟨["mass", "rt"], [("A", [10, 100]), ("B", [20, 200])]⟩
        ⟨["mass", "rt"], [("A", [11, 110]), ("C", [21, 210])]⟩
        [("mass", "absolute"), ("rt", "relative")] false
      = .ok (specDistance
          ⟨["mass", "rt"], [("A", [10, 100]), ("B", [20, 200])]⟩
          ⟨["mass", "rt"], [("A", [11, 110]), ("C", [21, 210])]⟩
          [("mass", "absolute"), ("rt", "relative")] false) :=
  calculate_distance_spec
    ⟨["mass", "rt"], [("A", [10, 100]), ("B", [20, 200])]⟩
    ⟨["mass", "rt"], [("A", [11, 110]), ("C", [21, 210])]⟩
    [("mass", "absolute"), ("rt", "relative")] false
    (by decide) (by decide)
    (by
      intro p hp hq k hk
      fin_cases hp <;> simp_all
      fin_cases hk
      norm_num [DTable.entryD, DTable.rowOf, colName, List.find?,
        show List.indexOf? "rt" ["mass", "rt"] = some 1 from by decide])

theorem exceptMap_isOk {e a b : Type} (r : Except e a) (f : a → b) :
    (r.map f).isOk = r.isOk := by
  cases r <;> rfl

theorem exceptMap_error_iff {e a b : Type} (r : Except e a) (f : a → b)
    (x : e) : r.map f = .error x ↔ r = .error x := by
  cases r <;> simp [Except.map]

theorem calcDeltasList_isOk (t1 t2 : DTable) (keys : List String)
    (calib : Bool) (od : List (String × String))
    (hcols : ∀ p ∈ od, t1.hasCol (colName p.1 calib) = true
      ∧ t2.hasCol (colName p.1 calib) = true) :
    ((calcDeltasList t1 t2 keys calib od).isOk = true ↔
      ∀ p ∈ od, validMode p.2) ∧
    (∀ e, calcDeltasList t1 t2 keys calib od = .error e →
      ∃ m, e = PyError.notImplemented m) := by
  induction od with
  | nil =>
    refine ⟨⟨fun _ => by simp, fun _ => rfl⟩, fun e he => ?_⟩
    simp [calcDeltasList] at he
  | cons hd rest ih =>
    obtain ⟨col, mode⟩ := hd
    have hcol1 := (hcols (col, mode) (by simp)).1
    have hcol2 := (hcols (col, mode) (by simp)).2
    obtain ⟨ih1, ih2⟩ := ih (fun p hp => hcols p (by simp [hp]))
    by_cases hm1 : mode = "absolute"
    · subst hm1
      have hred : calcDeltasList t1 t2 keys calib ((col, "absolute") :: rest)
          = (calcDeltasList t1 t2 keys calib rest).map
              (fun ds => deltasAbs
                (keys.map (fun k => t1.entryD k (colName col calib)))
                (keys.map (fun k => t2.entryD k (colName col calib))) :: ds)
          := by
        simp only [calcDeltasList]
        rw [if_pos trivial, getCol_ok t1 keys _ hcol1, getCol_ok t2 keys _ hcol2]
        cases hc : calcDeltasList t1 t2 keys calib rest <;> rfl
      constructor
      · rw [hred, exceptMap_isOk, ih1]
        simp [List.forall_mem_cons, validMode]
      · intro e he
        rw [hred, exceptMap_error_iff] at he
        exact ih2 e he
    · by_cases hm2 : mode = "relative"
      · subst hm2
        have hred : calcDeltasList t1 t2 keys calib ((col, "relative") :: rest)
            = (calcDeltasList t1 t2 keys calib rest).map
                (fun ds => deltasRel
                  (keys.map (fun k => t1.entryD k (colName col calib)))
                  (keys.map (fun k => t2.entryD k (colName col calib))) :: ds)
            := by
          simp only [calcDeltasList]
          rw [if_pos trivial, getCol_ok t1 keys _ hcol1,
            getCol_ok t2 keys _ hcol2]
          cases hc : calcDeltasList t1 t2 keys calib rest <;> rfl
        constructor
        · rw [hred, exceptMap_isOk, ih1]
          simp [List.forall_mem_cons, validMode]
        · intro e he
          rw [hred, exceptMap_error_iff] at he
          exact ih2 e he
      · have hred : calcDeltasList t1 t2 keys calib ((col, mode) :: rest)
            = .error (.notImplemented mode) :=
          calcDeltasList_cons_bad t1 t2 keys calib col mode rest hm1 hm2
        rw [hred]
        refine ⟨⟨fun h => Bool.noConfusion h, fun h => ?_⟩, fun e he => ?_⟩
        · exact absurd (h (col, mode) (by simp))
            (by simp [validMode, hm1, hm2])
        · refine ⟨mode, ?_⟩
          have he2 : PyError.notImplemented mode = e := by simpa using he
          rw [← he2]

theorem lookup_of_hasCol2 (t : CTable) (c : String)
    (h : hasCol2 t c = true) : ∃ v, lookupCol t c = some v := by
  unfold hasCol2 at h
  unfold lookupCol
  have hs : (t.find? (fun p => p.1 = c)).isSome := by
    rw [List.find?_isSome]
    rcases List.any_eq_true.mp h with ⟨p, hp, hpc⟩
    exact ⟨p, hp, hpc⟩
  rcases Option.isSome_iff_exists.mp hs with ⟨p, hp⟩
  exact ⟨p.2, by rw [hp]; rfl⟩

theorem hasCol2_setCol (t : CTable) (c : String) (v : List ℚ) (col : String)
    (h : hasCol2 t col = true) : hasCol2 (setCol t c v) col = true := by
  unfold hasCol2 at h ⊢
  unfold setCol
  rcases List.any_eq_true.mp h with ⟨p, hp, hpc⟩
  have hpc' : p.1 = col := by simpa using hpc
  by_cases hc : t.any (fun q => q.1 = c)
  · rw [if_pos hc]
    apply List.any_eq_true.mpr
    by_cases hcc : p.1 = c
    · refine ⟨(c, v), List.mem_map.mpr ⟨p, hp, by rw [if_pos hcc]⟩, ?_⟩
      have hccol : c = col := by rw [← hcc, hpc']
      simpa using hccol
    · refine ⟨p, List.mem_map.mpr ⟨p, hp, by rw [if_neg hcc]⟩, ?_⟩
      simpa using hpc'
  · rw [if_neg hc]
    apply List.any_eq_true.mpr
    exact ⟨p, by simp [hp], by simpa using hpc'⟩

theorem calib_table_isOk (delta : List (String × ℚ))
    (od : List (String × String)) :
    ∀ t : CTable,
      (∀ p ∈ od, hasCol2 t p.1 = true ∧ deltaGet delta p.1 ≠ none) →
      (((calib_table t delta od).isOk = true) ↔ ∀ p ∈ od, validMode p.2) ∧
      (∀ e, calib_table t delta od = .error e →
        ∃ m, e = PyError.notImplemented m) := by
  induction od with
  | nil =>
    intro t _
    refine ⟨⟨fun _ => by simp, fun _ => rfl⟩, fun e he => ?_⟩
    simp [calib_table] at he
  | cons hd rest ih =>
    intro t hwf
    obtain ⟨col, mode⟩ := hd
    have hcol := (hwf (col, mode) (by simp)).1
    have hdel := (hwf (col, mode) (by simp)).2
    have hcond : (!(hasCol2 t col) && hasCol2 t (col ++ "_apex")) = false := by
      rw [hcol]
      rfl
    have hcol_ : (if !(hasCol2 t col) && hasCol2 t (col ++ "_apex") then
        col ++ "_apex" else col) = col := by
      rw [hcond]
      simp
    obtain ⟨v, hv⟩ := lookup_of_hasCol2 t col hcol
    obtain ⟨dv, hdv⟩ := Option.ne_none_iff_exists'.mp hdel
    by_cases hm1 : mode = "absolute"
    · subst hm1
      have hred : calib_table t delta ((col, "absolute") :: rest)
          = calib_table (setCol t (col ++ "_calib") (v.map (fun x => x - dv)))
              delta rest := by
        simp only [calib_table, hcol_, hv, hdv]
        simp
      have hwf' : ∀ p ∈ rest, hasCol2 (setCol t (col ++ "_calib")
          (v.map (fun x => x - dv))) p.1 = true
          ∧ deltaGet delta p.1 ≠ none := fun p hp =>
        ⟨hasCol2_setCol t _ _ p.1 (hwf p (by simp [hp])).1,
          (hwf p (by simp [hp])).2⟩
      obtain ⟨ih1, ih2⟩ := ih _ hwf'
      rw [hred]
      refine ⟨?_, ih2⟩
      rw [ih1]
      simp [validMode]
    · by_cases hm2 : mode = "relative"
      · subst hm2
        have hred : calib_table t delta ((col, "relative") :: rest)
            = calib_table (setCol t (col ++ "_calib")
                (v.map (fun x => (1 - dv) * x))) delta rest := by
          simp only [calib_table, hcol_, hv, hdv]
          simp
        have hwf' : ∀ p ∈ rest, hasCol2 (setCol t (col ++ "_calib")
            (v.map (fun x => (1 - dv) * x))) p.1 = true
            ∧ deltaGet delta p.1 ≠ none := fun p hp =>
          ⟨hasCol2_setCol t _ _ p.1 (hwf p (by simp [hp])).1,
            (hwf p (by simp [hp])).2⟩
        obtain ⟨ih1, ih2⟩ := ih _ hwf'
        rw [hred]
        refine ⟨?_, ih2⟩
        rw [ih1]
        simp [validMode]
      · have hred : calib_table t delta ((col, mode) :: rest)
            = .error (.notImplemented mode) := by
          simp only [calib_table]
          rw [if_neg hm1, if_neg hm2]
        rw [hred]
        refine ⟨⟨fun h => Bool.noConfusion h, fun h => ?_⟩, fun e he => ?_⟩
        · exact absurd (h (col, mode) (by simp))
            (by simp [validMode, hm1, hm2])
        · refine ⟨mode, ?_⟩
          have he2 : PyError.notImplemented mode = e := by simpa using he
          rw [← he2]

/-- C6 counterexample: on a spec-sanctioned apex-fallback table whose
only dimension has the valid mode `relative`, `calib_table` propagates
a `KeyError` — a failure that is not the unsupported-mode error even
though every mode in the mapping is valid, so on the calibrator's
domain the unsupported-mode error is neither raised exactly when a
mode is invalid nor the only propagate-to-caller failure. -/
theorem unsupported_mode_counterexample :
    validMode "relative" ∧
    calib_table [("mobility_apex", [1])] [("mobility", 1 / 100)]
        [("mobility", "relative")]
      = .error (.keyError "mobility_apex") ∧
    PyError.keyError "mobility_apex" ≠ PyError.notImplemented "relative" :=
  ⟨Or.inr rfl, rfl, by decide⟩

/-- C6 (amended): on inputs carrying each dimension's canonical column
(and an offset record carrying each dimension), both
`calculate_distance` and `calib_table` raise an unsupported-mode
(`NotImplementedError`) error exactly when some dimension's mode is
neither absolute nor relative, and every error either can raise there
is the unsupported-mode one; on apex-fallback tables (canonical column
absent, apex variant present) `calib_table` instead also propagates a
`KeyError` for relative-mode dimensions, so the unsupported-mode error
is not the only propagating failure on those. -/
theorem unsupported_mode_only_failure (t1 t2 : DTable) (t : CTable)
    (delta : List (String × ℚ)) (od : List (String × String)) (calib : Bool)
    (hcols : ∀ p ∈ od, t1.hasCol (colName p.1 calib) = true
      ∧ t2.hasCol (colName p.1 calib) = true)
    (hct : ∀ p ∈ od, hasCol2 t p.1 = true ∧ deltaGet delta p.1 ≠ none) :
    ((calculate_distance t1 t2 od calib).isOk = true ↔
      ∀ p ∈ od, validMode p.2) ∧
    (∀ e, calculate_distance t1 t2 od calib = .error e →
      ∃ m, e = PyError.notImplemented m) ∧
    ((calib_table t delta od).isOk = true ↔ ∀ p ∈ od, validMode p.2) ∧
    (∀ e, calib_table t delta od = .error e →
      ∃ m, e = PyError.notImplemented m) := by
  obtain ⟨h1, h2⟩ :=
    calcDeltasList_isOk t1 t2 (sharedPrecursors t1 t2) calib od hcols
  obtain ⟨h3, h4⟩ := calib_table_isOk delta od t hct
  refine ⟨?_, ?_, h3, h4⟩
  · rw [← h1]
    simp only [calculate_distance]
    cases hc : calcDeltasList t1 t2 (sharedPrecursors t1 t2) calib od <;>
      exact Iff.rfl
  · intro e he
    apply h2 e
    simp only [calculate_distance] at he
    cases hc : calcDeltasList t1 t2 (sharedPrecursors t1 t2) calib od with
    | error e2 =>
      rw [hc] at he
      have he2 : (Except.error e2 : Except PyError (List (Option ℚ) × Nat))
          = Except.error e := he
      have he3 : e2 = e := by injection he2
      rw [he3]
    | ok ds =>
      rw [hc] at he
      have he2 : (Except.ok (ds, (sharedPrecursors t1 t2).length)
          : Except PyError (List (Option ℚ) × Nat)) = Except.error e := he
      exact absurd he2 (by simp)

/-- Witness for C6: a mapping with a typo mode fails both functions
with the unsupported-mode error, a well-formed mapping fails neither. -/
theorem unsupported_mode_only_failure_w :
    ((calculate_distance ⟨["mz"], [("A", [500])]⟩ ⟨["mz"], [("A", [501])]⟩
        [("mz", "banana")] false).isOk = true ↔
      ∀ p ∈ [("mz", "banana")], validMode p.2) ∧
    (∀ e, calculate_distance ⟨["mz"], [("A", [500])]⟩ ⟨["mz"], [("A", [501])]⟩
        [("mz", "banana")] false = .error e →
      ∃ m, e = PyError.notImplemented m) ∧
    ((calib_table [("mz", [500])] [("mz", 1)] [("mz", "banana")]).isOk = true ↔
      ∀ p ∈ [("mz", "banana")], validMode p.2) ∧
    (∀ e, calib_table [("mz", [500])] [("mz", 1)] [("mz", "banana")]
        = .error e → ∃ m, e = PyError.notImplemented m) :=
  unsupported_mode_only_failure ⟨["mz"], [("A", [500])]⟩
    ⟨["mz"], [("A", [501])]⟩ [("mz", [500])] [("mz", 1)] [("mz", "banana")]
    false (by decide) (by decide)

theorem find?_replace_self (r : PRow) (c : String) (v : PVal)
    (h : ∃ p ∈ r, p.1 = c) :
    (r.map (fun p => if p.1 = c then (c, v) else p)).find? (fun p => p.1 = c)
      = some (c, v) := by
  induction r with
  | nil =>
    rcases h with ⟨p, hp, _⟩
    cases hp
  | cons a t ih =>
    by_cases hac : a.1 = c
    · rw [List.map_cons, if_pos hac, List.find?_cons_of_pos _ (by simp)]
    · have h' : ∃ p ∈ t, p.1 = c := by
        rcases h with ⟨p, hp, hpc⟩
        rcases List.mem_cons.mp hp with rfl | hp'
        · exact absurd hpc hac
        · exact ⟨p, hp', hpc⟩
      rw [List.map_cons, if_neg hac,
        List.find?_cons_of_neg _ (by simpa using hac)]
      exact ih h'

theorem find?_replace_ne (r : PRow) (c c' : String) (v : PVal)
    (h : c' ≠ c) :
    (r.map (fun p => if p.1 = c then (c, v) else p)).find? (fun p => p.1 = c')
      = r.find? (fun p => p.1 = c') := by
  induction r with
  | nil => rfl
  | cons a t ih =>
    by_cases hac : a.1 = c
    · have h1 : ¬ ((c, v).1 = c') := by
        simpa using Ne.symm h
      have h2 : ¬ (a.1 = c') := by
        rw [hac]
        exact Ne.symm h
      rw [List.map_cons, if_pos hac,
        List.find?_cons_of_neg _ (by simpa using h1),
        List.find?_cons_of_neg _ (by simpa using h2), ih]
    · rw [List.map_cons, if_neg hac]
      by_cases hac' : a.1 = c'
      · rw [List.find?_cons_of_pos _ (by simpa using hac'),
          List.find?_cons_of_pos _ (by simpa using hac')]
      · rw [List.find?_cons_of_neg _ (by simpa using hac'),
          List.find?_cons_of_neg _ (by simpa using hac'), ih]

theorem getField_setField_self (r : PRow) (c : String) (v : PVal) :
    getField (setField r c v) c = some v := by
  unfold setField getField
  by_cases h : r.any (fun p => p.1 = c)
  · rw [if_pos h, find?_replace_self]
    · rfl
    · rcases List.any_eq_true.mp h with ⟨p, hp, hpc⟩
      exact ⟨p, hp, by simpa using hpc⟩
  · rw [if_neg h]
    have hnone : r.find? (fun p => p.1 = c) = none := by
      rw [List.find?_eq_none]
      intro x hx hxc
      exact h (List.any_eq_true.mpr ⟨x, hx, hxc⟩)
    rw [List.find?_append, hnone]
    simp [List.find?]

theorem getField_setField_ne (r : PRow) (c c' : String) (v : PVal)
    (h : c' ≠ c) : getField (setField r c v) c' = getField r c' := by
  unfold setField getField
  by_cases hany : r.any (fun p => p.1 = c)
  · rw [if_pos hany, find?_replace_ne r c c' v h]
  · rw [if_neg hany, List.find?_append]
    have h2 : ([((c, v) : String × PVal)].find? (fun p => p.1 = c')) = none := by
      rw [List.find?_eq_none]
      intro x hx
      rw [List.mem_singleton] at hx
      subst hx
      simpa using Ne.symm h
    rw [h2]
    cases hf : r.find? (fun p => p.1 = c') <;> rfl

theorem getD_setColumnAll (df : List PRow) (c : String) (v : PVal) (i : Nat)
    (h : i < df.length) :
    (setColumnAll df c v).getD i [] = setField (df.getD i []) c v := by
  unfold setColumnAll
  rw [List.getD_eq_getElem _ _ (by simpa using h), List.getD_eq_getElem _ _ h]
  simp

theorem getD_append_left_row (l1 l2 : List PRow) (i : Nat)
    (h : i < l1.length) : (l1 ++ l2).getD i [] = l1.getD i [] := by
  rw [List.getD_eq_getElem _ _ (by simp; omega), List.getD_eq_getElem _ _ h]
  exact List.getElem_append_left ..

theorem getD_append_right_row (l1 l2 : List PRow) (j : Nat)
    (h : j < l2.length) :
    (l1 ++ l2).getD (l1.length + j) [] = l2.getD j [] := by
  rw [List.getD_eq_getElem _ _ (by simp; omega), List.getD_eq_getElem _ _ h]
  rw [List.getElem_append_right (by omega)]
  congr 1
  omega

/-- C10: the merge of accepted matches into a run's identification
table is append-only: the result has the original rows first (unchanged
on every column other than the added `type`, set to `msms`, and
`matching_p`, set to `NaN`) followed by exactly the projected matched
rows; no original identification row is removed or modified. -/
theorem merge_matches_append_only (df matched : List PRow)
    (sharedCols : List String) :
    (mergeMatches df matched sharedCols).length
        = df.length + matched.length ∧
    (∀ i, i < df.length → ∀ c, c ≠ "type" → c ≠ "matching_p" →
      getField ((mergeMatches df matched sharedCols).getD i []) c
        = getField (df.getD i []) c) ∧
    (∀ i, i < df.length →
      getField ((mergeMatches df matched sharedCols).getD i []) "type"
          = some (PVal.str "msms") ∧
      getField ((mergeMatches df matched sharedCols).getD i []) "matching_p"
          = some PVal.nan) ∧
    (∀ j, j < matched.length →
      (mergeMatches df matched sharedCols).getD (df.length + j) []
        = projectRow (matched.getD j []) sharedCols) := by
  have hlen2 : (setColumnAll (setColumnAll df "type" (PVal.str "msms"))
      "matching_p" PVal.nan).length = df.length := by
    simp [setColumnAll]
  refine ⟨by simp [mergeMatches, setColumnAll], ?_, ?_, ?_⟩
  · intro i hi c hc1 hc2
    unfold mergeMatches
    rw [getD_append_left_row _ _ i (by rw [hlen2]; exact hi)]
    rw [getD_setColumnAll _ _ _ i (by simp [setColumnAll]; exact hi)]
    rw [getD_setColumnAll _ _ _ i hi]
    rw [getField_setField_ne _ _ _ _ hc2, getField_setField_ne _ _ _ _ hc1]
  · intro i hi
    unfold mergeMatches
    rw [getD_append_left_row _ _ i (by rw [hlen2]; exact hi)]
    rw [getD_setColumnAll _ _ _ i (by simp [setColumnAll]; exact hi)]
    rw [getD_setColumnAll _ _ _ i hi]
    constructor
    · rw [getField_setField_ne _ _ _ _ (by decide), getField_setField_self]
    · rw [getField_setField_self]
  · intro j hj
    unfold mergeMatches
    have hidx : df.length + j = (setColumnAll (setColumnAll df "type"
        (PVal.str "msms")) "matching_p" PVal.nan).length + j := by
      rw [hlen2]
    rw [hidx, getD_append_right_row _ _ j (by simpa using hj)]
    rw [List.getD_eq_getElem _ _ (by simpa using hj),
      List.getD_eq_getElem _ _ hj]
    simp

/-- Witness for C10 at a concrete one-row table and one accepted
match. -/
theorem merge_matches_append_only_w :
    getField ((mergeMatches [[("precursor", PVal.str "P"),
        ("score", PVal.num 5)]]
        [[("precursor", PVal.str "Q"), ("score", PVal.num 7),
          ("feature_idx", PVal.num 1)]]
        ["precursor", "score"]).getD 0 []) "score"
      = getField (([[("precursor", PVal.str "P"),
          ("score", PVal.num 5)]] : List PRow).getD 0 []) "score" ∧
    getField ((mergeMatches [[("precursor", PVal.str "P"),
        ("score", PVal.num 5)]]
        [[("precursor", PVal.str "Q"), ("score", PVal.num 7),
          ("feature_idx", PVal.num 1)]]
        ["precursor", "score"]).getD 0 []) "type" = some (PVal.str "msms") ∧
    (mergeMatches [[("precursor", PVal.str "P"), ("score", PVal.num 5)]]
        [[("precursor", PVal.str "Q"), ("score", PVal.num 7),
          ("feature_idx", PVal.num 1)]]
        ["precursor", "score"]).getD
        (([[("precursor", PVal.str "P"),
          ("score", PVal.num 5)]] : List PRow).length + 0) []
      = projectRow (([[("precursor", PVal.str "Q"), ("score", PVal.num 7),
          ("feature_idx", PVal.num 1)]] : List PRow).getD 0 [])
          ["precursor", "score"] :=
  ⟨(merge_matches_append_only [[("precursor", PVal.str "P"),
      ("score", PVal.num 5)]]
      [[("precursor", PVal.str "Q"), ("score", PVal.num 7),
        ("feature_idx", PVal.num 1)]] ["precursor", "score"]).2.1 0
      (by decide) "score" (by decide) (by decide),
   ((merge_matches_append_only [[("precursor", PVal.str "P"),
      ("score", PVal.num 5)]]
      [[("precursor", PVal.str "Q"), ("score", PVal.num 7),
        ("feature_idx", PVal.num 1)]] ["precursor", "score"]).2.2.1 0
      (by decide)).1,
   (merge_matches_append_only [[("precursor", PVal.str "P"),
      ("score", PVal.num 5)]]
      [[("precursor", PVal.str "Q"), ("score", PVal.num 7),
        ("feature_idx", PVal.num 1)]] ["precursor", "score"]).2.2.2 0
      (by decide)⟩

end Matching
